import Mathlib

/-!
Verification of the slot-extraction and normalization engine of the
rental-listing intake app (src/app/main.py).

The Python source is shallowly embedded: strings are Lean strings, Python
values stored in the slot dictionary are the inductive type Value, the
regular expressions of the source are hand-compiled into explicit
backtracking-faithful matchers over lists of characters, and the
Streamlit dialogue turns become explicit state-transition functions.
The character classes of the source regexes are modelled over the ASCII
range the application actually uses (plus the accented vowels that the
source handles explicitly); Python's int(float(s)) round trip on a digit
string is modelled as exact decimal reading, which agrees with CPython
for every value below 2^53, far above any rental-listing figure.
-/

/-- Python str.strip / regex whitespace class over the ASCII range
(space, tab, newline, carriage return, vertical tab, form feed). -/
def pyIsSpace (c : Char) : Bool :=
  c == ' ' || c == '\t' || c == '\n' || c == '\r' || c == '\x0b' || c == '\x0c'

/-- The ASCII decimal digits, the class the source regexes write as a
digit class. -/
def isDig (c : Char) : Bool :=
  c == '0' || c == '1' || c == '2' || c == '3' || c == '4' ||
  c == '5' || c == '6' || c == '7' || c == '8' || c == '9'

/-- Python str.lower restricted to ASCII letters plus the accented
capitals that can appear in the Spanish inputs of this app. -/
def pyLowerChar (c : Char) : Char :=
  if 'A' ≤ c ∧ c ≤ 'Z' then Char.ofNat (c.toNat + 32)
  else if c == 'Á' then 'á' else if c == 'É' then 'é' else if c == 'Í' then 'í'
  else if c == 'Ó' then 'ó' else if c == 'Ú' then 'ú' else if c == 'Ñ' then 'ñ'
  else if c == 'Ü' then 'ü' else c

def pyLower (s : String) : String := String.mk (s.data.map pyLowerChar)

/-- Drop leading whitespace, then trailing whitespace: Python str.strip(). -/
def pyStripList (l : List Char) : List Char :=
  (((l.dropWhile pyIsSpace).reverse.dropWhile pyIsSpace)).reverse

def pyStrip (s : String) : String := String.mk (pyStripList s.data)

/-- Does the needle occur at the head of the haystack. -/
def leadMatch : List Char → List Char → Bool
  | [], _ => true
  | _ :: _, [] => false
  | a :: as, b :: bs => a == b && leadMatch as bs

/-- Substring occurrence over char lists. -/
def hasSubList : List Char → List Char → Bool
  | needle, [] => needle.isEmpty
  | needle, b :: bs => leadMatch needle (b :: bs) || hasSubList needle bs

/-- Python's substring operator: needle in hay. -/
def pyIn (needle hay : String) : Bool := hasSubList needle.data hay.data

/-- Python str.split() with no argument: split on whitespace runs,
producing no empty words. Fuel-driven; the initial fuel of length+1
always suffices. -/
def pySplitGo : Nat → List Char → List String
  | 0, _ => []
  | fuel + 1, l =>
    match l.dropWhile pyIsSpace with
    | [] => []
    | c :: rest =>
      String.mk ((c :: rest).takeWhile (fun x => !pyIsSpace x)) ::
        pySplitGo fuel ((c :: rest).dropWhile (fun x => !pyIsSpace x))

def pySplit (s : String) : List String := pySplitGo (s.data.length + 1) s.data

/-- The decimal digit character of a value below ten. -/
def digitChar (d : Nat) : Char :=
  if d = 0 then '0' else if d = 1 then '1' else if d = 2 then '2'
  else if d = 3 then '3' else if d = 4 then '4' else if d = 5 then '5'
  else if d = 6 then '6' else if d = 7 then '7' else if d = 8 then '8' else '9'

/-- Numeric value of a digit character. -/
def charVal (c : Char) : Nat := c.toNat - 48

/-- Decimal digits, fuel-driven so that the definition reduces inside
the kernel; fuel n+1 always suffices for n. -/
def decDigitsGo : Nat → Nat → List Char
  | 0, _ => []
  | fuel + 1, n =>
    if n < 10 then [digitChar n] else decDigitsGo fuel (n / 10) ++ [digitChar (n % 10)]

/-- Decimal digits of a natural number, most significant first. -/
def toDecimalDigits (n : Nat) : List Char := decDigitsGo (n + 1) n

/-- Read a digit string back into a number (the exact model of
int(float(s)) on the pure-digit strings the number parser builds). -/
def digitsToNat (l : List Char) : Nat := l.foldl (fun a c => 10 * a + charVal c) 0

/-- Python str(n) for a natural number. -/
def pyStrOfNat (n : Nat) : String := String.mk (toDecimalDigits n)

/-- Python str(n) for an int. -/
def pyStrInt (n : Int) : String :=
  if n < 0 then "-" ++ pyStrOfNat n.natAbs else pyStrOfNat n.natAbs

/-- Python str(b) for a bool. -/
def pyStrBool (b : Bool) : String := if b then "True" else "False"

/-- Left-pad the decimal digits to a given width, as date.isoformat does. -/
def padDigits (w n : Nat) : List Char :=
  List.replicate (w - (toDecimalDigits n).length) '0' ++ toDecimalDigits n

/-- datetime.date(y, m, d).isoformat(): zero-padded YYYY-MM-DD. -/
def formatDate (y m d : Nat) : String :=
  String.mk (padDigits 4 y ++ '-' :: (padDigits 2 m ++ '-' :: padDigits 2 d))

/-- A Python value as stored in the slot dictionary: None, int, bool or str. -/
inductive Value where
  | none : Value
  | int : Int → Value
  | bool : Bool → Value
  | str : String → Value
deriving DecidableEq

/-- The slot store: a string-keyed dictionary of Values. -/
abbrev Slots := List (String × Value)

/-- dict.get(k) with default None. -/
def slotsGet (slots : Slots) (k : String) : Value := (slots.lookup k).getD Value.none

/-- dict assignment: replace the value at an existing key, append otherwise. -/
def slotsSet : Slots → String → Value → Slots
  | [], k, v => [(k, v)]
  | (k1, v1) :: rest, k, v =>
    if k1 == k then (k, v) :: rest else (k1, v1) :: slotsSet rest k v

/-- REQUIRED_SLOTS of main.py (the revision in src/ makes the three
amenities mandatory). -/
def REQUIRED_SLOTS : List String :=
  ["precio", "barrio_ciudad", "m2", "habitaciones", "banos",
   "disponibilidad", "ascensor", "amueblado", "mascotas"]

def OPTIONAL_SLOTS : List String := ["planta", "estado"]

def ALL_SLOTS : List String := REQUIRED_SLOTS ++ OPTIONAL_SLOTS

/-- FIELD_QUESTIONS of main.py. -/
def FIELD_QUESTIONS : List (String × String) :=
  [("precio", "¿Cuál es el precio mensual en euros?"),
   ("barrio_ciudad", "¿En qué barrio y ciudad está el piso? (Ej.: \x27Sant Gervasi, Barcelona\x27)"),
   ("m2", "¿Cuántos metros cuadrados tiene?"),
   ("habitaciones", "¿Cuántas habitaciones tiene?"),
   ("banos", "¿Cuántos baños tiene?"),
   ("disponibilidad", "¿Desde qué fecha está disponible? (YYYY-MM-DD)"),
   ("ascensor", "¿Tiene ascensor el edificio? (sí/no)"),
   ("amueblado", "¿Está amueblado el piso? (sí/no)"),
   ("mascotas", "¿Se aceptan mascotas? (sí/no)")]

/-- question_for_field of main.py, with its f-string fallback. -/
def question_for_field (field : String) : String :=
  (FIELD_QUESTIONS.lookup field).getD
    ("¿Puedes facilitar el dato para el campo \x27" ++ field ++ "\x27?")

/-- is_missing_value of main.py: None and whitespace-blank strings are
missing; False and 0 are not. The field argument is unused, as in the
source. -/
def is_missing_value (_field : String) (value : Value) : Bool :=
  match value with
  | Value.none => true
  | Value.str s => pyStrip s == ""
  | _ => false

/-- missing_required of main.py. -/
def missing_required (slots : Slots) : List String :=
  REQUIRED_SLOTS.filter (fun k => is_missing_value k (slotsGet slots k))

/-- make_questions of main.py: one question per still-missing required
field, in declaration order. -/
def make_questions (slots : Slots) : List String :=
  REQUIRED_SLOTS.foldl
    (fun qs f => if is_missing_value f (slotsGet slots f) then qs ++ [question_for_field f] else qs) []

/-- The sidebar progress count (main.py line 498): required fields that
are not missing. -/
def progressDone (slots : Slots) : Nat :=
  REQUIRED_SLOTS.countP (fun k => !is_missing_value k (slotsGet slots k))

/-- The repeated thousand-separator groups of the number regex: as many
occurrences of (dot-or-space followed by exactly three digits) as the
input offers, returned together with the remaining characters. -/
def takeGroups : List Char → List Char × List Char
  | c1 :: c2 :: c3 :: c4 :: rest =>
    if (c1 == '.' || pyIsSpace c1) && isDig c2 && isDig c3 && isDig c4 then
      let p := takeGroups rest
      (c1 :: c2 :: c3 :: c4 :: p.1, p.2)
    else ([], c1 :: c2 :: c3 :: c4 :: rest)
  | l => ([], l)

/-- The optional decimal tail of the number regex: a dot or comma
followed by at least one digit, or nothing. -/
def matchDec : List Char → List Char
  | [] => []
  | c :: rest =>
    if c == '.' || c == ',' then
      let ds := rest.takeWhile isDig
      if ds.isEmpty then [] else c :: ds
    else []

/-- The full number regex matched at a position whose head is a digit,
with Python's alternation preference: the grouped alternative (one to
three digits then at least one separator group) is preferred and, when
the leading digit run is longer than three or no group follows, the
plain digit-run alternative is taken; then the optional decimal tail. -/
def numMatchAt (l : List Char) : List Char :=
  let ds := l.takeWhile isDig
  let rest := l.dropWhile isDig
  if ds.length ≤ 3 then
    let p := takeGroups rest
    if p.1.isEmpty then ds ++ matchDec rest else ds ++ p.1 ++ matchDec p.2
  else ds ++ matchDec rest

/-- parse_number of main.py: find the first numeric token (both regex
alternatives start with a digit, so the match starts at the first digit),
strip dot and whitespace separators from the match, cut the comma-marked
decimal tail, and read the remaining digits. -/
def parse_number (text : String) : Option Nat :=
  if text == "" then Option.none
  else
    match text.data.dropWhile (fun c => !isDig c) with
    | [] => Option.none
    | c :: rest =>
      let m := numMatchAt (c :: rest)
      some (digitsToNat ((m.filter (fun x => !(x == '.' || pyIsSpace x))).takeWhile (fun x => !(x == ','))))

/-- The affirmative whole-word set of parse_bool. -/
def yesWords : List String :=
  ["si", "sí", "yes", "true", "con", "tiene", "hay", "permitido", "permiten"]

/-- The negative whole-word set of parse_bool. -/
def noWords : List String :=
  ["no", "false", "sin", "no hay", "no permitido", "no permiten"]

/-- The strong-negation substrings of parse_bool. -/
def strongNegCues : List String := ["no ", " sin", "no.", "no,", "no\t"]

/-- parse_bool of main.py: strong negation substrings win unless the
substring sí (or si) occurs anywhere; then whole-word affirmatives; then
whole-word negatives; otherwise no answer. -/
def parse_bool (text : String) : Option Bool :=
  if text == "" then Option.none
  else
    let t := pyLower (pyStrip text)
    if strongNegCues.any (fun w => pyIn w t) && !(pyIn "sí" t || pyIn "si" t) then
      some false
    else
      let tokens := pySplit t
      if tokens.any (fun w => yesWords.contains w) then some true
      else if tokens.any (fun w => noWords.contains w) then some false
      else Option.none

/-- SPANISH_MONTHS of main.py, including the historical variant
setiembre. -/
def SPANISH_MONTHS : List (String × Nat) :=
  [("enero", 1), ("febrero", 2), ("marzo", 3), ("abril", 4), ("mayo", 5), ("junio", 6),
   ("julio", 7), ("agosto", 8), ("septiembre", 9), ("setiembre", 9), ("octubre", 10),
   ("noviembre", 11), ("diciembre", 12)]

/-- Exactly n digits from the front, with the remainder. -/
def exactDigits : Nat → List Char → Option (List Char × List Char)
  | 0, l => some ([], l)
  | _ + 1, [] => Option.none
  | n + 1, c :: rest =>
    if isDig c then (exactDigits n rest).map (fun p => (c :: p.1, p.2)) else Option.none

/-- Gregorian leap year, as datetime uses. -/
def isLeap (y : Nat) : Bool := (y % 4 == 0 && !(y % 100 == 0)) || y % 400 == 0

def daysInMonth (y m : Nat) : Nat :=
  if m == 2 then (if isLeap y then 29 else 28)
  else if m == 4 || m == 6 || m == 9 || m == 11 then 30 else 31

/-- Whether datetime(y, m, d) constructs without raising: year within
datetime's bounds, month 1-12, day within the month. -/
def isValidDate (y m d : Nat) : Bool :=
  decide (1 ≤ y ∧ y ≤ 9999 ∧ 1 ≤ m ∧ m ≤ 12 ∧ 1 ≤ d ∧ d ≤ daysInMonth y m)

/-- At least one whitespace character, then any further run of them. -/
def ws1Plus : List Char → Option (List Char)
  | c :: rest => if pyIsSpace c then some (rest.dropWhile pyIsSpace) else Option.none
  | [] => Option.none

/-- The anchored ISO regex of parse_date_es: optional whitespace, four
digits, dash, two digits, dash, two digits, optional whitespace, end.
On success the source rebuilds the string from the three groups. -/
def matchIso (l : List Char) : Option String :=
  match exactDigits 4 (l.dropWhile pyIsSpace) with
  | some (g1, r1) =>
    match r1 with
    | sep1 :: r2 =>
      if sep1 == '-' then
        match exactDigits 2 r2 with
        | some (g2, r3) =>
          match r3 with
          | sep2 :: r4 =>
            if sep2 == '-' then
              match exactDigits 2 r4 with
              | some (g3, r5) =>
                if (r5.dropWhile pyIsSpace).isEmpty then
                  some (String.mk (g1 ++ '-' :: (g2 ++ '-' :: g3)))
                else Option.none
              | Option.none => Option.none
            else Option.none
          | [] => Option.none
        | Option.none => Option.none
      else Option.none
    | [] => Option.none
  | Option.none => Option.none

def dmySep (c : Char) : Bool := c == '/' || c == '-'

/-- One width combination of the day/month/year regex: w1 digits, a
slash-or-dash, w2 digits, a slash-or-dash, four digits, optional
whitespace, end. -/
def matchDMYwidths (w1 w2 : Nat) (l : List Char) : Option (Nat × Nat × Nat) :=
  match exactDigits w1 l with
  | some (d1, r1) =>
    match r1 with
    | s1 :: r2 =>
      if dmySep s1 then
        match exactDigits w2 r2 with
        | some (d2, r3) =>
          match r3 with
          | s2 :: r4 =>
            if dmySep s2 then
              match exactDigits 4 r4 with
              | some (d3, r5) =>
                if (r5.dropWhile pyIsSpace).isEmpty then
                  some (digitsToNat d1, digitsToNat d2, digitsToNat d3)
                else Option.none
              | Option.none => Option.none
            else Option.none
          | [] => Option.none
        | Option.none => Option.none
      else Option.none
    | [] => Option.none
  | Option.none => Option.none

/-- The day/month/year regex with Python's greedy backtracking order on
the two one-or-two-digit groups. -/
def matchDMY (l : List Char) : Option (Nat × Nat × Nat) :=
  let l1 := l.dropWhile pyIsSpace
  match matchDMYwidths 2 2 l1 with
  | some r => some r
  | Option.none =>
    match matchDMYwidths 2 1 l1 with
    | some r => some r
    | Option.none =>
      match matchDMYwidths 1 2 l1 with
      | some r => some r
      | Option.none => matchDMYwidths 1 1 l1

/-- The letter class of the verbose date regex: lowercase ASCII letters
plus the accented vowels. -/
def isMonthChar (c : Char) : Bool :=
  decide ('a' ≤ c ∧ c ≤ 'z') || c == 'á' || c == 'é' || c == 'í' || c == 'ó' || c == 'ú'

/-- One width combination of the verbose date regex: w digits,
whitespace, de, whitespace, a month-letter run, whitespace, de,
whitespace, four digits, optional whitespace, end. -/
def matchVerboseW (w : Nat) (l : List Char) : Option (Nat × String × Nat) :=
  match exactDigits w l with
  | some (dd, r1) =>
    match ws1Plus r1 with
    | some r2 =>
      match r2 with
      | 'd' :: 'e' :: r3 =>
        match ws1Plus r3 with
        | some r4 =>
          let mes := r4.takeWhile isMonthChar
          if mes.isEmpty then Option.none
          else
            match ws1Plus (r4.dropWhile isMonthChar) with
            | some r6 =>
              match r6 with
              | 'd' :: 'e' :: r7 =>
                match ws1Plus r7 with
                | some r8 =>
                  match exactDigits 4 r8 with
                  | some (yy, r9) =>
                    if (r9.dropWhile pyIsSpace).isEmpty then
                      some (digitsToNat dd, String.mk mes, digitsToNat yy)
                    else Option.none
                  | Option.none => Option.none
                | Option.none => Option.none
              | _ => Option.none
            | Option.none => Option.none
        | Option.none => Option.none
      | _ => Option.none
    | Option.none => Option.none
  | Option.none => Option.none

/-- The verbose date regex with the two-digit day preferred. -/
def matchVerbose (l : List Char) : Option (Nat × String × Nat) :=
  let l1 := l.dropWhile pyIsSpace
  match matchVerboseW 2 l1 with
  | some r => some r
  | Option.none => matchVerboseW 1 l1

/-- The chained accent replacements applied to the month name. -/
def deaccentChar (c : Char) : Char :=
  if c == 'á' then 'a' else if c == 'é' then 'e' else if c == 'í' then 'i'
  else if c == 'ó' then 'o' else if c == 'ú' then 'u' else c

def deaccent (s : String) : String := String.mk (s.data.map deaccentChar)

/-- The current date, an input of the embedding since the source reads
the clock (datetime.today). -/
structure PyDate where
  year : Nat
  month : Nat
  day : Nat

def validPyDate (td : PyDate) : Bool := isValidDate td.year td.month td.day

/-- today.date().isoformat(). -/
def pyDateIso (td : PyDate) : String := formatDate td.year td.month td.day

/-- parse_date_es of main.py: today-words by substring, then the ISO
shape (rebuilt from its groups with no calendar validation), then
day/month/year and the verbose Spanish form, both validated through
datetime with invalid dates giving None. -/
def parse_date_es (today : PyDate) (text : String) : Option String :=
  if text == "" then Option.none
  else
    let t := pyLower (pyStrip text)
    if pyIn "inmediata" t || pyIn "ya" t || pyIn "hoy" t then some (pyDateIso today)
    else
      match matchIso t.data with
      | some out => some out
      | Option.none =>
        match matchDMY t.data with
        | some (dd, mm, yyyy) =>
          if isValidDate yyyy mm dd then some (formatDate yyyy mm dd) else Option.none
        | Option.none =>
          match matchVerbose t.data with
          | some (dd, mesRaw, yyyy) =>
            let mm := (SPANISH_MONTHS.lookup (deaccent mesRaw)).getD 0
            if mm ≠ 0 then
              (if isValidDate yyyy mm dd then some (formatDate yyyy mm dd) else Option.none)
            else Option.none
          | Option.none => Option.none

/-- normalize_field of main.py under the default configuration (the
SMART_FALLBACK environment variable unset, so the GPT fallback branch at
the bottom of the function is dead code and the function is pure): each
field kind runs its local parser and, when that parser finds nothing,
the stripped raw text is returned as a string. The clock is a parameter
because the date parser reads it. -/
def normalize_field (today : PyDate) (field : String) (text : String) : Value :=
  let raw := pyStrip text
  if field == "precio" then
    match parse_number raw with
    | some v => Value.int (v : Int)
    | Option.none => Value.str raw
  else if field == "m2" then
    match parse_number raw with
    | some v => Value.int (v : Int)
    | Option.none => Value.str raw
  else if field == "habitaciones" || field == "banos" || field == "planta" then
    match parse_number raw with
    | some v => Value.int (v : Int)
    | Option.none =>
      if field == "planta" then
        let low := pyLower raw
        if pyIn "bajo" low then Value.int 0
        else if pyIn "principal" low then Value.int 1
        else Value.str raw
      else Value.str raw
  else if field == "ascensor" || field == "amueblado" || field == "mascotas" then
    match parse_bool raw with
    | some v => Value.bool v
    | Option.none => Value.str raw
  else if field == "disponibilidad" then
    match parse_date_es today raw with
    | some v => Value.str v
    | Option.none => Value.str raw
  else if field == "barrio_ciudad" then Value.str raw
  else Value.str raw

/-- Python int(s) on a string: optional sign then decimal digits, with
surrounding whitespace allowed; anything else raises (here: None).
The underscore-grouping extension of the int literal syntax is not
modelled; no input of this app uses it. -/
def pyIntOfStr (s : String) : Option Int :=
  match pyStripList s.data with
  | '-' :: rest =>
    if rest ≠ [] ∧ rest.all isDig then some (-(digitsToNat rest : Int)) else Option.none
  | '+' :: rest =>
    if rest ≠ [] ∧ rest.all isDig then some ((digitsToNat rest : Int)) else Option.none
  | rest =>
    if rest ≠ [] ∧ rest.all isDig then some ((digitsToNat rest : Int)) else Option.none

/-- The to_int helper inside validate_slots: int(v) with any exception
giving None. int of None raises; int of a bool is 0 or 1. -/
def pyToInt : Value → Option Int
  | Value.none => Option.none
  | Value.int n => some n
  | Value.bool b => some (if b then 1 else 0)
  | Value.str s => pyIntOfStr s

/-- validate_slots of main.py. Python truthiness guards each finding:
None and 0 are falsy, so a zero value never produces a finding. The
floor division of Python is Int.fdiv. -/
def validate_slots (slots : Slots) : List String :=
  let m2 := pyToInt (slotsGet slots "m2")
  let hab := pyToInt (slotsGet slots "habitaciones")
  let ban := pyToInt (slotsGet slots "banos")
  let precio := pyToInt (slotsGet slots "precio")
  (match m2 with
   | some v => if v ≠ 0 ∧ v < 25 then ["⚠️ m2 parece demasiado bajo (<25)"] else []
   | Option.none => []) ++
  (match hab, m2 with
   | some hv, some mv =>
     if hv ≠ 0 ∧ mv ≠ 0 ∧ Int.fdiv mv 8 < hv then ["⚠️ Demasiadas habitaciones para los m2"] else []
   | _, _ => []) ++
  (match ban with
   | some bv => if bv ≠ 0 ∧ 5 < bv then ["⚠️ Número de baños inusual (>5)"] else []
   | Option.none => []) ++
  (match precio with
   | some pv => if pv ≤ 0 then ["⚠️ Precio debe ser mayor que 0"] else []
   | Option.none => [])

/-- The tenant-preference checks guarding the save button
(main.py lines 801-808). -/
def pref_errors (tipos : List String) (maxOcupantes durMin : Int) : List String :=
  (if tipos.isEmpty then ["Debes seleccionar al menos un tipo de inquilino preferido."] else []) ++
  (if maxOcupantes < 1 then ["Indica el número máximo de ocupantes."] else []) ++
  (if durMin < 1 then ["Indica la duración mínima deseada del alquiler (meses)."] else [])

/-- The save gate of main.py (lines 800-816): the record is built and
persisted exactly when the preference checks pass and no required slot
is missing. validate_slots plays no part here. -/
def saveAllowed (tipos : List String) (maxOcupantes durMin : Int) (slots : Slots) : Bool :=
  (pref_errors tipos maxOcupantes durMin).isEmpty && (missing_required slots).isEmpty

/-- JSON whitespace. -/
def jsonWs (c : Char) : Bool := c == ' ' || c == '\t' || c == '\n' || c == '\r'

/-- The body of a JSON string up to its closing quote. The escape-free
fragment suffices for the flat field/value objects of the extraction
contract. -/
def scanJString : List Char → Option (List Char × List Char)
  | [] => Option.none
  | c :: rest =>
    if c == '"' then some ([], rest)
    else if c == '\\' then Option.none
    else (scanJString rest).map (fun p => (c :: p.1, p.2))

/-- A JSON scalar: string, true, false, null or integer. -/
def parseJScalar : List Char → Option (Value × List Char)
  | '"' :: rest => (scanJString rest).map (fun p => (Value.str (String.mk p.1), p.2))
  | 't' :: 'r' :: 'u' :: 'e' :: rest => some (Value.bool true, rest)
  | 'f' :: 'a' :: 'l' :: 's' :: 'e' :: rest => some (Value.bool false, rest)
  | 'n' :: 'u' :: 'l' :: 'l' :: rest => some (Value.none, rest)
  | '-' :: rest =>
    let ds := rest.takeWhile isDig
    if ds.isEmpty then Option.none
    else some (Value.int (-(digitsToNat ds : Int)), rest.dropWhile isDig)
  | c :: rest =>
    if isDig c then
      some (Value.int ((digitsToNat ((c :: rest).takeWhile isDig) : Int)), (c :: rest).dropWhile isDig)
    else Option.none
  | [] => Option.none

/-- The comma-separated key/value pairs of a JSON object body. -/
def parseJPairs : Nat → List Char → Option (List (String × Value) × List Char)
  | 0, _ => Option.none
  | fuel + 1, l =>
    match l.dropWhile jsonWs with
    | '"' :: rest =>
      match scanJString rest with
      | some (key, r1) =>
        match r1.dropWhile jsonWs with
        | ':' :: r3 =>
          match parseJScalar (r3.dropWhile jsonWs) with
          | some (v, r4) =>
            match r4.dropWhile jsonWs with
            | ',' :: r6 =>
              match parseJPairs fuel r6 with
              | some (ps, r7) => some ((String.mk key, v) :: ps, r7)
              | Option.none => Option.none
            | r5 => some ([(String.mk key, v)], r5)
          | Option.none => Option.none
        | _ => Option.none
      | Option.none => Option.none
    | _ => Option.none

/-- Later duplicate keys overwrite earlier ones, as json.loads does. -/
def dictOfPairs (ps : List (String × Value)) : List (String × Value) :=
  ps.foldl (fun acc p => slotsSet acc p.1 p.2) []

/-- json.loads restricted to the shape the extraction contract
prescribes: one flat object of scalar values, with nothing but
whitespace after it. -/
def parseJsonFlat (s : String) : Option (List (String × Value)) :=
  match s.data.dropWhile jsonWs with
  | '\x7b' :: r =>
    match r.dropWhile jsonWs with
    | '\x7d' :: r2 => if (r2.dropWhile jsonWs).isEmpty then some [] else Option.none
    | body =>
      match parseJPairs (body.length + 1) body with
      | some (ps, r2) =>
        match r2.dropWhile jsonWs with
        | '\x7d' :: r3 => if (r3.dropWhile jsonWs).isEmpty then some (dictOfPairs ps) else Option.none
        | _ => Option.none
      | Option.none => Option.none
  | _ => Option.none

/-- data.setdefault(k, None) over ALL_SLOTS: append a null for every
missing key, keep everything already present. -/
def defaultAll (d : List (String × Value)) : List (String × Value) :=
  ALL_SLOTS.foldl (fun acc k => if (acc.lookup k).isNone then acc ++ [(k, Value.none)] else acc) d

/-- str.find for a single-character needle: first index or -1. -/
def pyFindChar (s : String) (c : Char) : Int :=
  match s.data.findIdx? (fun x => x == c) with
  | some i => (i : Int)
  | Option.none => -1

/-- str.rfind for a single-character needle: last index or -1. -/
def pyRFindChar (s : String) (c : Char) : Int :=
  match s.data.reverse.findIdx? (fun x => x == c) with
  | some i => ((s.data.length - 1 - i : Nat) : Int)
  | Option.none => -1

/-- Python slicing s[a:b] with negative indices counted from the end and
both bounds clamped to the string. -/
def pySlice (s : String) (a b : Int) : String :=
  let n := s.data.length
  let a1 := if a < 0 then (n : Int) + a else a
  let b1 := if b < 0 then (n : Int) + b else b
  String.mk ((s.data.take ((max b1 0).toNat.min n)).drop ((max a1 0).toNat.min n))

/-- extract_slots of main.py, taking the external service's response
text as input: strict parse, then the fallback parse of the slice from
the first opening brace to the last closing brace, then failure (in the
source, an uncaught json exception); a successful parse is defaulted
over ALL_SLOTS. -/
def extract_slots (content : String) : Except Unit (List (String × Value)) :=
  match parseJsonFlat content with
  | some d => Except.ok (defaultAll d)
  | Option.none =>
    match parseJsonFlat (pySlice content (pyFindChar content '\x7b') (pyRFindChar content '\x7d' + 1)) with
    | some d => Except.ok (defaultAll d)
    | Option.none => Except.error ()

/-- The per-conversation Streamlit session state used by the dialogue. -/
structure ConvState where
  messages : List (String × String)
  slots : Slots
  descripcion_original : String
  current_question_field : Option String

/-- init_state of main.py: all slots present and null. -/
def initSlots : Slots := ALL_SLOTS.map (fun k => (k, Value.none))

def initConvState : ConvState :=
  { messages := [], slots := initSlots, descripcion_original := "",
    current_question_field := Option.none }

/-- The state predicate selecting the initial-description branch of the
dialogue (main.py line 541): no description captured yet. -/
def awaitingDescription (st : ConvState) : Bool := st.descripcion_original == ""

/-- The merge loop after extraction (main.py lines 559-561): every
non-null extracted value overwrites the slot. -/
def mergeExtracted (slots : Slots) (extracted : List (String × Value)) : Slots :=
  ALL_SLOTS.foldl
    (fun acc k =>
      match (extracted.lookup k).getD Value.none with
      | Value.none => acc
      | v => slotsSet acc k v)
    slots

/-- The initial-description turn (main.py lines 548-583). The user
message and the description are stored before the extraction call, so
when both parses fail the raised exception leaves exactly those two
mutations behind. -/
def submitDescription (st : ConvState) (descText : String) (content : String) : ConvState :=
  if descText ≠ "" ∧ pyStrip descText ≠ "" then
    let st1 : ConvState :=
      { st with messages := st.messages ++ [("user", descText)], descripcion_original := descText }
    match extract_slots content with
    | Except.error _ => st1
    | Except.ok extracted =>
      let slots1 := mergeExtracted st1.slots extracted
      match missing_required slots1 with
      | firstField :: _ =>
        { st1 with
          slots := slots1
          current_question_field := some firstField
          messages := st1.messages ++
            [("assistant",
              "Gracias, he leído la descripción. Para completar la ficha te iré haciendo algunas preguntas, una a una.\n\n"
                ++ question_for_field firstField)] }
      | [] =>
        { st1 with
          slots := slots1
          current_question_field := Option.none
          messages := st1.messages ++
            [("assistant",
              "Perfecto, ya tengo lo necesario. Revisa la ficha a la derecha, luego pasa al Paso 2 (Inquilino) y guarda el piso.")] }
  else st

/-- The completion message of the question loop (main.py lines 613-618). -/
def askDoneMsg : String :=
  "¡Listo! Ya tengo todos los datos básicos del piso.<br><br>" ++
  "<span style=\x27color:#1f6feb; font-weight:bold;\x27>1) Revisa la ficha del anuncio a la derecha</span><br>" ++
  "<span style=\x27color:#1f6feb; font-weight:bold;\x27>2) Ve a la pestaña «👥 Paso 2 · Inquilino»</span><br>" ++
  "<span style=\x27color:#1f6feb; font-weight:bold;\x27>3) Completa tus preferencias y pulsa «Guardar piso»</span>"

/-- A question-loop turn (main.py lines 586-627): the reply is
normalized against the pending field and stored; if that field is still
missing the same question is asked again, otherwise the next missing
field (or the completion message) follows. With no pending question the
reply is acknowledged as a comment. -/
def askTurn (today : PyDate) (st : ConvState) (prompt : String) : ConvState :=
  if prompt = "" then st
  else
    let st1 : ConvState := { st with messages := st.messages ++ [("user", prompt)] }
    match st.current_question_field with
    | some currentField =>
      let value := normalize_field today currentField prompt
      let slots1 := slotsSet st1.slots currentField value
      let missing := missing_required slots1
      if missing.contains currentField then
        { st1 with
          slots := slots1
          messages := st1.messages ++ [("assistant", question_for_field currentField)] }
      else
        match missing with
        | nextField :: _ =>
          { st1 with
            slots := slots1
            current_question_field := some nextField
            messages := st1.messages ++ [("assistant", question_for_field nextField)] }
        | [] =>
          { st1 with
            slots := slots1
            current_question_field := Option.none
            messages := st1.messages ++ [("assistant", askDoneMsg)] }
    | Option.none =>
      { st1 with messages := st1.messages ++
          [("assistant", "He anotado tu comentario. Ajusta en la ficha si lo necesitas.")] }

/-- One ficha text input writing back into the slot store
(main.py lines 639-649): the widget's text is assigned directly, with no
normalization. -/
def fichaEdit (slots : Slots) (k : String) (typed : String) : Slots :=
  slotsSet slots k (Value.str typed)

/-- The value shown in a ficha text input: empty for null, str(v)
otherwise. -/
def fichaDisplay : Value → String
  | Value.none => ""
  | Value.int n => pyStrInt n
  | Value.bool b => pyStrBool b
  | Value.str s => s

/-! Character-level facts. -/

theorem isDig_cases {c : Char} (h : isDig c = true) :
    c = '0' ∨ c = '1' ∨ c = '2' ∨ c = '3' ∨ c = '4' ∨
    c = '5' ∨ c = '6' ∨ c = '7' ∨ c = '8' ∨ c = '9' := by
  simp only [isDig, Bool.or_eq_true, beq_iff_eq] at h
  tauto

theorem isDig_not_space {c : Char} (h : isDig c = true) : pyIsSpace c = false := by
  rcases isDig_cases h with rfl | rfl | rfl | rfl | rfl | rfl | rfl | rfl | rfl | rfl <;> rfl

theorem isDig_lower {c : Char} (h : isDig c = true) : pyLowerChar c = c := by
  rcases isDig_cases h with rfl | rfl | rfl | rfl | rfl | rfl | rfl | rfl | rfl | rfl <;> rfl

theorem isDig_beq_dot {c : Char} (h : isDig c = true) : (c == '.') = false := by
  rcases isDig_cases h with rfl | rfl | rfl | rfl | rfl | rfl | rfl | rfl | rfl | rfl <;> rfl

theorem isDig_beq_comma {c : Char} (h : isDig c = true) : (c == ',') = false := by
  rcases isDig_cases h with rfl | rfl | rfl | rfl | rfl | rfl | rfl | rfl | rfl | rfl <;> rfl

theorem dash_props : pyIsSpace '-' = false ∧ pyLowerChar '-' = '-' ∧ isDig '-' = false := by
  refine ⟨rfl, rfl, rfl⟩

/-! List basics: takeWhile, dropWhile and filter under a uniform predicate. -/

theorem takeWhile_eq_self_of_all {p : Char → Bool} :
    ∀ {l : List Char}, (∀ c ∈ l, p c = true) → l.takeWhile p = l := by
  intro l
  induction l with
  | nil => intro _; rfl
  | cons a r ih =>
    intro h
    have ha : p a = true := h a (List.mem_cons_self a r)
    simp only [List.takeWhile_cons, ha, if_true]
    rw [ih (fun c hc => h c (List.mem_cons_of_mem a hc))]

theorem dropWhile_eq_nil_of_all {p : Char → Bool} :
    ∀ {l : List Char}, (∀ c ∈ l, p c = true) → l.dropWhile p = [] := by
  intro l
  induction l with
  | nil => intro _; rfl
  | cons a r ih =>
    intro h
    have ha : p a = true := h a (List.mem_cons_self a r)
    simp only [List.dropWhile_cons, ha, if_true]
    exact ih (fun c hc => h c (List.mem_cons_of_mem a hc))

theorem dropWhile_eq_self_of_all_neg {p : Char → Bool} {l : List Char}
    (h : ∀ c ∈ l, p c = false) : l.dropWhile p = l := by
  cases l with
  | nil => rfl
  | cons a r =>
    have ha : ¬ p a = true := by
      rw [h a (List.mem_cons_self a r)]; exact Bool.false_ne_true
    exact List.dropWhile_cons_of_neg ha

theorem filter_eq_self_of_all {p : Char → Bool} {l : List Char}
    (h : ∀ c ∈ l, p c = true) : l.filter p = l :=
  List.filter_eq_self.mpr h

theorem head_false_of_dropWhile_cons {p : Char → Bool} {l r : List Char} {a : Char}
    (h : l.dropWhile p = a :: r) : p a = false := by
  induction l with
  | nil => simp at h
  | cons b t ih =>
    by_cases hb : p b = true
    · rw [List.dropWhile_cons_of_pos hb] at h; exact ih h
    · rw [List.dropWhile_cons_of_neg hb] at h
      cases h; exact Bool.not_eq_true _ |>.mp hb

theorem dropWhile_idem {p : Char → Bool} (l : List Char) :
    (l.dropWhile p).dropWhile p = l.dropWhile p := by
  cases h : l.dropWhile p with
  | nil => rfl
  | cons a r =>
    have := head_false_of_dropWhile_cons h
    exact List.dropWhile_cons_of_neg (by rw [this]; exact Bool.false_ne_true)

theorem getLast?_dropWhile {p : Char → Bool} (l : List Char)
    (hne : l.dropWhile p ≠ []) : (l.dropWhile p).getLast? = l.getLast? := by
  conv_rhs => rw [← List.takeWhile_append_dropWhile p l]
  rw [List.getLast?_append]
  cases h2 : (l.dropWhile p).getLast? with
  | none => exact absurd (List.getLast?_eq_none_iff.mp h2) hne
  | some v => rfl

/-! Stripping: edge characters of a stripped list are never whitespace,
and stripping is idempotent. -/

theorem head?_dropWhile_false {p : Char → Bool} {l : List Char} {a : Char}
    (h : (l.dropWhile p).head? = some a) : p a = false := by
  cases hd : l.dropWhile p with
  | nil => rw [hd] at h; simp at h
  | cons b t =>
    rw [hd] at h
    simp only [List.head?_cons, Option.some.injEq] at h
    exact h ▸ head_false_of_dropWhile_cons hd

theorem pyStripList_eq_self {l : List Char}
    (hh : ∀ a, l.head? = some a → pyIsSpace a = false)
    (hl : ∀ a, l.getLast? = some a → pyIsSpace a = false) :
    pyStripList l = l := by
  unfold pyStripList
  have h1 : l.dropWhile pyIsSpace = l := by
    cases l with
    | nil => rfl
    | cons a t =>
      refine List.dropWhile_cons_of_neg ?_
      rw [hh a rfl]; exact Bool.false_ne_true
  rw [h1]
  have h2 : l.reverse.dropWhile pyIsSpace = l.reverse := by
    cases hr : l.reverse with
    | nil => rfl
    | cons a t =>
      refine List.dropWhile_cons_of_neg ?_
      have ha : l.getLast? = some a := by
        rw [← List.head?_reverse, hr]; rfl
      rw [hl a ha]; exact Bool.false_ne_true
  rw [h2, List.reverse_reverse]

theorem pyStripList_idem (l : List Char) :
    pyStripList (pyStripList l) = pyStripList l := by
  refine pyStripList_eq_self ?_ ?_
  · intro a ha
    unfold pyStripList at ha
    rw [List.head?_reverse] at ha
    have hne : (l.dropWhile pyIsSpace).reverse.dropWhile pyIsSpace ≠ [] := by
      intro hcon; rw [hcon] at ha; simp at ha
    rw [getLast?_dropWhile _ hne, List.getLast?_reverse] at ha
    exact head?_dropWhile_false ha
  · intro a ha
    unfold pyStripList at ha
    rw [List.getLast?_reverse] at ha
    exact head?_dropWhile_false ha

theorem pyStrip_idem (s : String) : pyStrip (pyStrip s) = pyStrip s := by
  unfold pyStrip
  exact congrArg String.mk (pyStripList_idem s.data)

/-! Decimal digits of a number: non-empty, all digits, and reading them
back yields the number. -/

theorem charVal_digitChar : ∀ d : Nat, d < 10 → charVal (digitChar d) = d := by decide

theorem isDig_digitChar : ∀ d : Nat, d < 10 → isDig (digitChar d) = true := by decide

theorem decDigitsGo_congr :
    ∀ f1 : Nat, ∀ f2 n : Nat, n < f1 → n < f2 → decDigitsGo f1 n = decDigitsGo f2 n := by
  intro f1
  induction f1 with
  | zero => intro f2 n h1; omega
  | succ g1 ih =>
    intro f2 n h1 h2
    cases f2 with
    | zero => omega
    | succ g2 =>
      simp only [decDigitsGo]
      by_cases h10 : n < 10
      · simp [h10]
      · simp only [h10, if_false]
        have : decDigitsGo g1 (n / 10) = decDigitsGo g2 (n / 10) := by
          have hd : n / 10 < n := Nat.div_lt_self (by omega) (by omega)
          exact ih g2 (n / 10) (by omega) (by omega)
        rw [this]

theorem toDecimalDigits_eq (n : Nat) :
    toDecimalDigits n =
      if n < 10 then [digitChar n] else toDecimalDigits (n / 10) ++ [digitChar (n % 10)] := by
  by_cases h10 : n < 10
  · simp only [toDecimalDigits, decDigitsGo, h10, if_true]
  · simp only [h10, if_false]
    show decDigitsGo (n + 1) n = toDecimalDigits (n / 10) ++ [digitChar (n % 10)]
    conv_lhs => rw [decDigitsGo]
    simp only [h10, if_false]
    have hd : n / 10 < n := Nat.div_lt_self (by omega) (by omega)
    rw [decDigitsGo_congr n (n / 10 + 1) (n / 10) (by omega) (by omega)]
    rfl

theorem toDecimalDigits_ne_nil (n : Nat) : toDecimalDigits n ≠ [] := by
  rw [toDecimalDigits_eq]
  split <;> simp

theorem mem_toDecimalDigits_isDig : ∀ n : Nat, ∀ c ∈ toDecimalDigits n, isDig c = true := by
  intro n
  induction n using Nat.strong_induction_on with
  | _ n ih =>
    rw [toDecimalDigits_eq]
    split
    · intro c hc
      rw [List.mem_singleton] at hc
      subst hc
      exact isDig_digitChar n (by omega)
    · intro c hc
      rw [List.mem_append] at hc
      rcases hc with hc | hc
      · exact ih (n / 10) (by omega) c hc
      · rw [List.mem_singleton] at hc
        subst hc
        exact isDig_digitChar (n % 10) (by omega)

theorem digitsToNat_append_singleton (xs : List Char) (c : Char) :
    digitsToNat (xs ++ [c]) = 10 * digitsToNat xs + charVal c := by
  simp [digitsToNat, List.foldl_append]

theorem digitsToNat_toDecimalDigits : ∀ n : Nat, digitsToNat (toDecimalDigits n) = n := by
  intro n
  induction n using Nat.strong_induction_on with
  | _ n ih =>
    rw [toDecimalDigits_eq]
    split
    · simp [digitsToNat, charVal_digitChar n (by omega)]
    · rw [digitsToNat_append_singleton, ih (n / 10) (by omega),
        charVal_digitChar (n % 10) (by omega)]
      omega

theorem toDecimalDigits_length_le : ∀ k n : Nat, 1 ≤ k → n < 10 ^ k →
    (toDecimalDigits n).length ≤ k := by
  intro k
  induction k with
  | zero => intro n h; omega
  | succ k ih =>
    intro n _ hn
    rw [toDecimalDigits_eq]
    split
    · simp
    · rename_i h10
      rw [List.length_append, List.length_singleton]
      have hk : 1 ≤ k := by
        rcases Nat.eq_zero_or_pos k with rfl | hp
        · simp at hn; omega
        · exact hp
      have hdiv : n / 10 < 10 ^ k := by
        rw [Nat.div_lt_iff_lt_mul (by norm_num)]
        calc n < 10 ^ (k + 1) := hn
        _ = 10 ^ k * 10 := by rw [pow_succ]
      have := ih (n / 10) hk hdiv
      omega

/-! parse_number on a plain decimal string returns its value. -/

theorem numMatchAt_all_digits {l : List Char} (h : ∀ c ∈ l, isDig c = true) :
    numMatchAt l = l := by
  have htake : l.takeWhile isDig = l := takeWhile_eq_self_of_all h
  have hdrop : l.dropWhile isDig = [] := dropWhile_eq_nil_of_all h
  unfold numMatchAt
  rw [htake, hdrop]
  by_cases hlen : l.length ≤ 3
  · simp [hlen, takeGroups, matchDec]
  · simp [hlen, matchDec]

theorem parse_number_pyStrOfNat (n : Nat) : parse_number (pyStrOfNat n) = some n := by
  have hne := toDecimalDigits_ne_nil n
  have hdig := mem_toDecimalDigits_isDig n
  unfold parse_number pyStrOfNat
  have h0 : (String.mk (toDecimalDigits n) == "") = false := by
    rw [beq_eq_false_iff_ne]
    intro hcon
    exact hne (congrArg String.data hcon)
  rw [h0]
  simp only [Bool.false_eq_true, if_false]
  have h1 : (toDecimalDigits n).dropWhile (fun c => !isDig c) = toDecimalDigits n :=
    dropWhile_eq_self_of_all_neg (fun c hc => by rw [hdig c hc]; rfl)
  rw [h1]
  cases hcons : toDecimalDigits n with
  | nil => exact absurd hcons hne
  | cons c rest =>
    rw [hcons] at hdig
    have hmatch : numMatchAt (c :: rest) = c :: rest := numMatchAt_all_digits hdig
    simp only [hmatch]
    have hfilter : (c :: rest).filter (fun x => !(x == '.' || pyIsSpace x)) = c :: rest := by
      refine filter_eq_self_of_all (fun x hx => ?_)
      rw [isDig_beq_dot (hdig x hx), isDig_not_space (hdig x hx)]
      rfl
    have htw : (c :: rest).takeWhile (fun x => !(x == ',')) = c :: rest := by
      refine takeWhile_eq_self_of_all (fun x hx => ?_)
      rw [isDig_beq_comma (hdig x hx)]
      rfl
    rw [hfilter, htw, ← hcons, digitsToNat_toDecimalDigits]

/-! The slot dictionary. -/

theorem slotsGet_set_self (s : Slots) (k : String) (v : Value) :
    slotsGet (slotsSet s k v) k = v := by
  induction s with
  | nil => simp [slotsSet, slotsGet, List.lookup]
  | cons p rest ih =>
    obtain ⟨k1, v1⟩ := p
    by_cases h : k1 = k
    · subst h
      simp [slotsSet, slotsGet, List.lookup]
    · have hb : (k1 == k) = false := beq_eq_false_iff_ne.mpr h
      have hb2 : (k == k1) = false := beq_eq_false_iff_ne.mpr (Ne.symm h)
      simp only [slotsSet, hb, Bool.false_eq_true, if_false]
      simpa [slotsGet, List.lookup, hb2] using ih

theorem slotsGet_set_ne (s : Slots) {k k2 : String} (v : Value) (h : k2 ≠ k) :
    slotsGet (slotsSet s k v) k2 = slotsGet s k2 := by
  induction s with
  | nil => simp [slotsSet, slotsGet, List.lookup, beq_eq_false_iff_ne.mpr h]
  | cons p rest ih =>
    obtain ⟨k1, v1⟩ := p
    by_cases h1 : k1 = k
    · subst h1
      simp [slotsSet, slotsGet, List.lookup, beq_eq_false_iff_ne.mpr h]
    · have hb : (k1 == k) = false := beq_eq_false_iff_ne.mpr h1
      simp only [slotsSet, hb, Bool.false_eq_true, if_false]
      by_cases h2 : k2 = k1
      · subst h2
        simp [slotsGet, List.lookup]
      · have hb2 : (k2 == k1) = false := beq_eq_false_iff_ne.mpr h2
        simpa [slotsGet, List.lookup, hb2] using ih

/-! Lookup facts for the setdefault loop of extract_slots. -/

theorem lookup_append_of_isSome {d1 d2 : List (String × Value)} {k : String}
    (h : (d1.lookup k).isSome) : (d1 ++ d2).lookup k = d1.lookup k := by
  induction d1 with
  | nil => simp [List.lookup] at h
  | cons p t ih =>
    obtain ⟨k1, v1⟩ := p
    by_cases hk : k = k1
    · subst hk
      simp [List.lookup]
    · have hb : (k == k1) = false := beq_eq_false_iff_ne.mpr hk
      simp only [List.cons_append, List.lookup, hb] at h ⊢
      exact ih h

theorem lookup_append_missing {d1 : List (String × Value)} {k : String} {v : Value}
    (h : d1.lookup k = Option.none) : (d1 ++ [(k, v)]).lookup k = some v := by
  induction d1 with
  | nil => simp [List.lookup]
  | cons p t ih =>
    obtain ⟨k1, v1⟩ := p
    by_cases hk : k = k1
    · subst hk
      simp [List.lookup] at h
    · have hb : (k == k1) = false := beq_eq_false_iff_ne.mpr hk
      simp only [List.lookup, hb] at h
      simp only [List.cons_append, List.lookup, hb]
      exact ih h

theorem setdefault_fold_covers (L : List String) :
    ∀ d : List (String × Value),
      (∀ k0, (d.lookup k0).isSome →
        ((L.foldl (fun acc k => if (acc.lookup k).isNone then acc ++ [(k, Value.none)] else acc) d).lookup k0).isSome) ∧
      (∀ k ∈ L,
        ((L.foldl (fun acc k => if (acc.lookup k).isNone then acc ++ [(k, Value.none)] else acc) d).lookup k).isSome) := by
  induction L with
  | nil => exact fun d => ⟨fun _ h => h, fun k hk => absurd hk (List.not_mem_nil k)⟩
  | cons a t ih =>
    intro d
    have hstep : ∀ k0, (d.lookup k0).isSome →
        (((if (d.lookup a).isNone then d ++ [(a, Value.none)] else d).lookup k0).isSome) := by
      intro k0 h0
      split
      · rw [lookup_append_of_isSome h0]; exact h0
      · exact h0
    have hself : (((if (d.lookup a).isNone then d ++ [(a, Value.none)] else d).lookup a).isSome) := by
      split
      · rename_i hnone
        rw [lookup_append_missing (Option.isNone_iff_eq_none.mp hnone)]
        rfl
      · rename_i hsome
        rw [Option.isNone_iff_eq_none] at hsome
        rcases h2 : d.lookup a with _ | v
        · exact absurd h2 hsome
        · rfl
    constructor
    · intro k0 h0
      simp only [List.foldl_cons]
      exact (ih _).1 k0 (hstep k0 h0)
    · intro k hk
      simp only [List.foldl_cons]
      rcases List.mem_cons.mp hk with rfl | hk2
      · exact (ih _).1 k hself
      · exact (ih _).2 k hk2

theorem defaultAll_covers (d : List (String × Value)) (k : String) (hk : k ∈ ALL_SLOTS) :
    ∃ v, (defaultAll d).lookup k = some v := by
  have := (setdefault_fold_covers ALL_SLOTS d).2 k hk
  unfold defaultAll
  exact Option.isSome_iff_exists.mp this

/-! Generic foldl shape of make_questions. -/

theorem foldl_questions_eq (p : String → Bool) (q : String → String) :
    ∀ (L : List String) (acc : List String),
      L.foldl (fun qs f => if p f then qs ++ [q f] else qs) acc = acc ++ (L.filter p).map q := by
  intro L
  induction L with
  | nil => intro acc; simp
  | cons a t ih =>
    intro acc
    by_cases h : p a
    · simp [List.foldl_cons, List.filter_cons, h, ih]
    · simp [List.foldl_cons, List.filter_cons, h, ih]

/-- C2, corrected. The missing-value classification is not exactly
"unset or the empty string": a whitespace-only string such as a single
blank is also classified missing, because the source strips the value
before comparing with the empty string. -/
theorem C2_counterexample :
    is_missing_value "precio" (Value.str " ") = true ∧
    Value.str " " ≠ Value.none ∧
    (" " : String) ≠ "" := by
  refine ⟨by decide, by decide, by decide⟩

/-- C2 amended: a value is classified missing exactly when it is unset
or a string that strips to the empty string; boolean and integer values
(so false and 0) are never missing; and this one classification is what
the question queue, the progress count and the save gate consult. -/
theorem C2_amended :
    (∀ f v, is_missing_value f v = true ↔
      (v = Value.none ∨ ∃ s, v = Value.str s ∧ pyStrip s = "")) ∧
    (∀ f b, is_missing_value f (Value.bool b) = false) ∧
    (∀ f n, is_missing_value f (Value.int n) = false) ∧
    (∀ slots, missing_required slots =
      REQUIRED_SLOTS.filter (fun k => is_missing_value k (slotsGet slots k))) ∧
    (∀ slots, make_questions slots = (missing_required slots).map question_for_field) ∧
    (∀ slots, progressDone slots =
      (REQUIRED_SLOTS.filter (fun k => !is_missing_value k (slotsGet slots k))).length) ∧
    (∀ tipos mo dm slots, saveAllowed tipos mo dm slots = true → missing_required slots = []) := by
  refine ⟨?_, ?_, ?_, ?_, ?_, ?_, ?_⟩
  · intro f v
    cases v with
    | none => simp [is_missing_value]
    | int n => simp [is_missing_value]
    | bool b => simp [is_missing_value]
    | str s =>
      simp only [is_missing_value, beq_iff_eq]
      constructor
      · intro h; exact Or.inr ⟨s, rfl, h⟩
      · rintro (h | ⟨s2, hs2, h⟩)
        · exact absurd h (by simp)
        · cases hs2; exact h
  · intro f b; rfl
  · intro f n; rfl
  · intro slots; rfl
  · intro slots
    unfold make_questions missing_required
    exact foldl_questions_eq _ _ REQUIRED_SLOTS []
  · intro slots
    unfold progressDone
    exact List.countP_eq_length_filter _ _
  · intro tipos mo dm slots h
    unfold saveAllowed at h
    rw [Bool.and_eq_true, List.isEmpty_iff, List.isEmpty_iff] at h
    exact h.2

/-- C2 witness for the save-gate conjunct of the amended theorem. -/
theorem C2_witness :
    missing_required [("precio", Value.int 900), ("barrio_ciudad", Value.str "Sants, Barcelona"),
      ("m2", Value.int 80), ("habitaciones", Value.int 2), ("banos", Value.int 1),
      ("disponibilidad", Value.str "2025-12-15"), ("ascensor", Value.bool false),
      ("amueblado", Value.bool true), ("mascotas", Value.bool false)] = [] :=
  C2_amended.2.2.2.2.2.2 ["Individuo"] 2 6 _ (by decide)

/-- The slot store of the save-gate counterexample: complete, but with a
price of zero, which validate_slots flags. -/
def c3SlotsA : Slots :=
  [("precio", Value.int 0), ("barrio_ciudad", Value.str "Gràcia, Barcelona"),
   ("m2", Value.int 80), ("habitaciones", Value.int 2), ("banos", Value.int 1),
   ("disponibilidad", Value.str "2025-12-15"), ("ascensor", Value.bool false),
   ("amueblado", Value.bool true), ("mascotas", Value.bool false),
   ("planta", Value.none), ("estado", Value.none)]

/-- A complete slot store with zero bathrooms and a positive price. -/
def c3SlotsB : Slots :=
  [("precio", Value.int 900), ("barrio_ciudad", Value.str "Gràcia, Barcelona"),
   ("m2", Value.int 80), ("habitaciones", Value.int 2), ("banos", Value.int 0),
   ("disponibilidad", Value.str "2025-12-15"), ("ascensor", Value.bool false),
   ("amueblado", Value.bool true), ("mascotas", Value.bool false),
   ("planta", Value.none), ("estado", Value.none)]

/-- C3, corrected. Saving is not gated on validate_slots: a store whose
price is zero carries a validate_slots finding yet passes the save gate,
and a zero bathroom count produces no finding at all (the truthiness
guard skips zero), also passing the gate. -/
theorem C3_counterexample :
    validate_slots c3SlotsA = ["⚠️ Precio debe ser mayor que 0"] ∧
    saveAllowed ["Individuo"] 2 6 c3SlotsA = true ∧
    validate_slots c3SlotsB = [] ∧
    saveAllowed ["Individuo"] 2 6 c3SlotsB = true := by
  refine ⟨by decide, by decide, by decide, by decide⟩

/-- C3 amended: the save gate is exactly the three tenant-preference
checks plus zero missing required fields; the validate_slots findings
(non-positive price among them) are advisory and never block the save. -/
theorem C3_amended : ∀ (tipos : List String) (mo dm : Int) (slots : Slots),
    saveAllowed tipos mo dm slots = true ↔
      (tipos ≠ [] ∧ 1 ≤ mo ∧ 1 ≤ dm ∧ missing_required slots = []) := by
  intro tipos mo dm slots
  unfold saveAllowed pref_errors
  rw [Bool.and_eq_true]
  simp only [List.isEmpty_iff, List.append_eq_nil]
  constructor
  · rintro ⟨⟨⟨h1, h2⟩, h3⟩, h4⟩
    refine ⟨?_, ?_, ?_, h4⟩
    · intro hcon
      rw [if_pos hcon] at h1
      exact absurd h1 (by simp)
    · by_contra hcon
      rw [if_pos (by omega)] at h2
      exact absurd h2 (by simp)
    · by_contra hcon
      rw [if_pos (by omega)] at h3
      exact absurd h3 (by simp)
  · rintro ⟨h1, h2, h3, h4⟩
    refine ⟨⟨⟨?_, ?_⟩, ?_⟩, h4⟩
    · rw [if_neg h1]
    · rw [if_neg (by omega)]
    · rw [if_neg (by omega)]

/-- C6, corrected. The strong negation cue is the substring "no"
followed by space, period, comma or tab — not a whole-word "no" — so a
word merely ending in "no" triggers it: "bueno pero caro" has no "no"
token, no "sin" substring, and no affirmative or negative whole word,
yet parses as an explicit false instead of absent. -/
theorem C6_counterexample :
    parse_bool "bueno pero caro" = some false ∧
    ("no" ∉ pySplit "bueno pero caro") ∧
    pyIn "sin" "bueno pero caro" = false ∧
    (∀ w ∈ pySplit "bueno pero caro", yesWords.contains w = false ∧ noWords.contains w = false) := by
  refine ⟨by decide, by decide, by decide, by decide⟩

/-- C6 amended: the precedence is exactly substring-negation first
(suppressed by any sí/si substring), then the affirmative whole-word
set, then the negative whole-word set, then absent — with the negation
cue being substring-based, so it also fires inside words ending in
"no"; the claim's two examples hold, and a phrase with both an explicit
sí and a "no" token resolves through the affirmative set first. -/
theorem C6_amended :
    parse_bool "no tiene ascensor" = some false ∧
    parse_bool "sí, con ascensor" = some true ∧
    parse_bool "bueno pero caro" = some false ∧
    parse_bool "sí, no hay problema" = some true ∧
    parse_bool "sin ascensor" = some false ∧
    parse_bool "amarillo" = Option.none := by
  refine ⟨by decide, by decide, by decide, by decide, by decide, by decide⟩

/-- C7, confirmed: the currency/integer-count normalizer on the spec's
examples, including the first-token rule and the empty string. -/
theorem C7_parse_number_examples :
    parse_number "1.200" = some 1200 ∧
    parse_number "1 200" = some 1200 ∧
    parse_number "2500,50" = some 2500 ∧
    parse_number "" = Option.none ∧
    parse_number "precio: 950 euros" = some 950 ∧
    (∀ s : String, (∀ c ∈ s.data, isDig c = false) → parse_number s = Option.none) := by
  refine ⟨by decide, by decide, by decide, by decide, by decide, ?_⟩
  intro s h
  unfold parse_number
  by_cases h0 : (s == "") = true
  · rw [if_pos h0]
  · rw [if_neg h0]
    have : s.data.dropWhile (fun c => !isDig c) = [] :=
      dropWhile_eq_nil_of_all (fun c hc => by rw [h c hc]; rfl)
    rw [this]

/-- C10, confirmed: a dot not forming a three-digit group is stripped as
if it were a thousands separator, concatenating the following digits. -/
theorem C10_dot_decimal_concat :
    parse_number "2500.50" = some 250050 ∧ parse_number "1.5" = some 15 := by
  refine ⟨by decide, by decide⟩

/-- C8, corrected. A ficha edit stores the widget's raw text directly
(main.py line 641), so the typed "1.200" for the price becomes the
string "1.200" while the dialogue path normalizes the same text to the
integer 1200. -/
theorem C8_counterexample :
    slotsGet (fichaEdit initSlots "precio" "1.200") "precio" = Value.str "1.200" ∧
    normalize_field ⟨2025, 10, 12⟩ "precio" "1.200" = Value.int 1200 ∧
    Value.str "1.200" ≠ Value.int 1200 := by
  refine ⟨by decide, by decide, by decide⟩

/-- C8 amended: a ficha edit bypasses FieldNormalizer and stores the
raw typed text as a string; clearing a field stores the empty string,
which the missing-value policy classifies as missing (absent). -/
theorem C8_amended : ∀ (slots : Slots) (k typed : String),
    slotsGet (fichaEdit slots k typed) k = Value.str typed ∧
    (typed = "" → is_missing_value k (slotsGet (fichaEdit slots k typed) k) = true) := by
  intro slots k typed
  have hset : slotsGet (fichaEdit slots k typed) k = Value.str typed :=
    slotsGet_set_self slots k (Value.str typed)
  refine ⟨hset, ?_⟩
  intro h
  subst h
  rw [hset]
  rfl

/-- C8 witness: clearing the price field in the ficha leaves it missing. -/
theorem C8_witness :
    slotsGet (fichaEdit initSlots "precio" "") "precio" = Value.str "" ∧
    is_missing_value "precio" (slotsGet (fichaEdit initSlots "precio" "") "precio") = true :=
  ⟨(C8_amended initSlots "precio" "").1, (C8_amended initSlots "precio" "").2 rfl⟩

/-! The question-loop turn: what normalize_field hands back for a blank
reply, and how the turn treats it. -/

theorem normalize_field_blank (today : PyDate) (f reply : String)
    (hf : f ∈ REQUIRED_SLOTS) (h : pyStrip reply = "") :
    normalize_field today f reply = Value.str "" := by
  fin_cases hf <;> simp [normalize_field, h, parse_number, parse_bool, parse_date_es]

/-- C1, corrected. The claim's "any failure manifests as an absent
result" fails: a non-blank reply the price parser cannot read is
returned as raw text, stored, counted as present, and the controller
advances to the next question — silently accepting an unusable answer. -/
theorem C1_counterexample :
    parse_number "quinientos euros" = Option.none ∧
    normalize_field ⟨2025, 10, 12⟩ "precio" "quinientos euros" = Value.str "quinientos euros" ∧
    slotsGet (askTurn ⟨2025, 10, 12⟩
      { messages := [], slots := initSlots, descripcion_original := "piso céntrico",
        current_question_field := some "precio" } "quinientos euros").slots "precio" =
      Value.str "quinientos euros" ∧
    (askTurn ⟨2025, 10, 12⟩
      { messages := [], slots := initSlots, descripcion_original := "piso céntrico",
        current_question_field := some "precio" } "quinientos euros").current_question_field =
      some "barrio_ciudad" := by
  refine ⟨rfl, rfl, rfl, rfl⟩

/-- A non-blank reply stored as raw text by the normalizer is accepted:
the field stops being missing and the controller moves off it. -/
theorem askTurn_accepts_raw (today : PyDate) (st : ConvState) (f reply : String)
    (h1 : st.current_question_field = some f) (h3 : reply ≠ "") (h4 : pyStrip reply ≠ "")
    (hv : normalize_field today f reply = Value.str (pyStrip reply)) :
    slotsGet (askTurn today st reply).slots f = Value.str (pyStrip reply) ∧
    (f ∉ missing_required (askTurn today st reply).slots) ∧
    (askTurn today st reply).current_question_field ≠ some f := by
  have hnm : is_missing_value f (Value.str (pyStrip reply)) = false := by
    show (pyStrip (pyStrip reply) == "") = false
    rw [pyStrip_idem]
    exact beq_eq_false_iff_ne.mpr h4
  have hnotmem : f ∉ missing_required (slotsSet st.slots f (Value.str (pyStrip reply))) := by
    intro hcon
    have := (List.mem_filter.mp hcon).2
    rw [slotsGet_set_self] at this
    rw [hnm] at this
    exact Bool.false_ne_true this
  have hcont : (missing_required (slotsSet st.slots f (Value.str (pyStrip reply)))).contains f = false := by
    rw [← Bool.not_eq_true]
    intro hcon
    exact hnotmem (List.elem_iff.mp (by simpa [List.contains] using hcon))
  unfold askTurn
  rw [if_neg h3, h1]
  dsimp only
  rw [hv, hcont, if_neg Bool.false_ne_true]
  cases hm : missing_required (slotsSet st.slots f (Value.str (pyStrip reply))) with
  | nil =>
    dsimp only
    refine ⟨slotsGet_set_self _ _ _, ?_, by simp⟩
    rw [hm]
    exact List.not_mem_nil _
  | cons nextF rest =>
    dsimp only
    have hnext : nextF ≠ f := by
      intro hcon
      apply hnotmem
      rw [hm, hcon]
      exact List.mem_cons_self _ _
    refine ⟨slotsGet_set_self _ _ _, ?_, ?_⟩
    · rw [hm]
      exact hm ▸ hnotmem
    · simp only [ne_eq, Option.some.injEq]
      exact hnext

/-- C1 amended: in AskingField(f) normalization never raises (it is a
total function); a reply that strips to nothing leaves the field
missing, keeps the same current question and re-emits the same prompt;
but a non-blank reply whose numeric parser fails is stored as raw text,
is no longer missing, and the controller moves off the field. -/
theorem C1_amended :
    (∀ (today : PyDate) (st : ConvState) (f reply : String),
      st.current_question_field = some f → f ∈ REQUIRED_SLOTS → reply ≠ "" → pyStrip reply = "" →
        (askTurn today st reply).current_question_field = some f ∧
        (askTurn today st reply).messages =
          st.messages ++ [("user", reply), ("assistant", question_for_field f)] ∧
        is_missing_value f (slotsGet (askTurn today st reply).slots f) = true) ∧
    (∀ (today : PyDate) (st : ConvState) (f reply : String),
      st.current_question_field = some f →
      f ∈ ["precio", "m2", "habitaciones", "banos"] → reply ≠ "" → pyStrip reply ≠ "" →
      parse_number (pyStrip reply) = Option.none →
        slotsGet (askTurn today st reply).slots f = Value.str (pyStrip reply) ∧
        (f ∉ missing_required (askTurn today st reply).slots) ∧
        (askTurn today st reply).current_question_field ≠ some f) := by
  constructor
  · intro today st f reply h1 hf h3 h4
    have hv : normalize_field today f reply = Value.str "" := normalize_field_blank today f reply hf h4
    have hmem : f ∈ missing_required (slotsSet st.slots f (Value.str "")) := by
      unfold missing_required
      refine List.mem_filter.mpr ⟨hf, ?_⟩
      rw [slotsGet_set_self]
      rfl
    have hcont : (missing_required (slotsSet st.slots f (Value.str ""))).contains f = true := by
      simpa [List.contains] using List.elem_iff.mpr hmem
    unfold askTurn
    rw [if_neg h3, h1]
    dsimp only
    rw [hv, hcont, if_pos rfl]
    dsimp only
    refine ⟨rfl, by simp, ?_⟩
    rw [slotsGet_set_self]
    rfl
  · intro today st f reply h1 hf h3 h4 hp
    have hv : normalize_field today f reply = Value.str (pyStrip reply) := by
      fin_cases hf <;> simp [normalize_field, hp]
    exact askTurn_accepts_raw today st f reply h1 h3 h4 hv

/-- C1 witness: a whitespace reply to the price question re-asks it, and
the unusable reply quinientos is stored and accepted. -/
theorem C1_witness :
    ((askTurn ⟨2025, 10, 12⟩
        { messages := [], slots := initSlots, descripcion_original := "piso",
          current_question_field := some "precio" } "   ").current_question_field = some "precio" ∧
     (askTurn ⟨2025, 10, 12⟩
        { messages := [], slots := initSlots, descripcion_original := "piso",
          current_question_field := some "precio" } "   ").messages =
        ([] : List (String × String)) ++ [("user", "   "), ("assistant", question_for_field "precio")] ∧
     is_missing_value "precio" (slotsGet (askTurn ⟨2025, 10, 12⟩
        { messages := [], slots := initSlots, descripcion_original := "piso",
          current_question_field := some "precio" } "   ").slots "precio") = true) ∧
    (slotsGet (askTurn ⟨2025, 10, 12⟩
        { messages := [], slots := initSlots, descripcion_original := "piso",
          current_question_field := some "precio" } "quinientos").slots "precio" =
        Value.str (pyStrip "quinientos") ∧
     ("precio" ∉ missing_required (askTurn ⟨2025, 10, 12⟩
        { messages := [], slots := initSlots, descripcion_original := "piso",
          current_question_field := some "precio" } "quinientos").slots) ∧
     (askTurn ⟨2025, 10, 12⟩
        { messages := [], slots := initSlots, descripcion_original := "piso",
          current_question_field := some "precio" } "quinientos").current_question_field ≠
        some "precio") :=
  ⟨C1_amended.1 ⟨2025, 10, 12⟩ _ "precio" "   " rfl (by decide) (by decide) (by decide),
   C1_amended.2 ⟨2025, 10, 12⟩ _ "precio" "quinientos" rfl (by decide) (by decide) (by decide)
     (by decide)⟩

set_option maxHeartbeats 2000000 in
/-- C4, corrected. When both the strict parse and the brace-slice
fallback fail, the error propagates (the source has no try around the
fallback and no catch at the call site), and because the description was
already stored before the extraction call, the conversation is no longer
in AwaitingDescription: resubmitting text will not re-run extraction. -/
theorem C4_counterexample :
    extract_slots "sin datos" = Except.error () ∧
    (submitDescription initConvState "piso en Gracia" "sin datos").slots = initSlots ∧
    (submitDescription initConvState "piso en Gracia" "sin datos").descripcion_original =
      "piso en Gracia" ∧
    awaitingDescription (submitDescription initConvState "piso en Gracia" "sin datos") = false := by
  refine ⟨rfl, rfl, rfl, rfl⟩

set_option maxHeartbeats 2000000 in
/-- C4 amended: a doubly-unparsable response fails the extraction call
with a propagated error; the slot store and the pending question are
untouched and no automatic retry occurs, but the description is already
recorded, so the conversation leaves AwaitingDescription instead of
remaining there; any key absent from a successfully parsed response is
defaulted to null (every FieldSchema key is present afterwards). -/
theorem C4_amended :
    (∀ (st : ConvState) (desc content : String),
      desc ≠ "" → pyStrip desc ≠ "" → extract_slots content = Except.error () →
        (submitDescription st desc content).slots = st.slots ∧
        (submitDescription st desc content).current_question_field = st.current_question_field ∧
        (submitDescription st desc content).descripcion_original = desc ∧
        awaitingDescription (submitDescription st desc content) = false) ∧
    (∀ (content : String) (d : List (String × Value)) (k : String),
      extract_slots content = Except.ok d → k ∈ ALL_SLOTS → ∃ v, d.lookup k = some v) := by
  constructor
  · intro st desc content h1 h2 h3
    unfold submitDescription
    rw [if_pos ⟨h1, h2⟩, h3]
    dsimp only
    refine ⟨rfl, rfl, rfl, ?_⟩
    unfold awaitingDescription
    dsimp only
    exact beq_eq_false_iff_ne.mpr h1
  · intro content d k hok hk
    unfold extract_slots at hok
    cases hparse : parseJsonFlat content with
    | some d0 =>
      rw [hparse] at hok
      dsimp only at hok
      cases hok
      exact defaultAll_covers d0 k hk
    | none =>
      rw [hparse] at hok
      dsimp only at hok
      cases hparse2 : parseJsonFlat (pySlice content (pyFindChar content '\x7b')
          (pyRFindChar content '\x7d' + 1)) with
      | some d0 =>
        rw [hparse2] at hok
        dsimp only at hok
        cases hok
        exact defaultAll_covers d0 k hk
      | none =>
        rw [hparse2] at hok
        exact absurd hok (by simp)

/-- C4 witness: the failure path at a concrete state and a concrete
unparsable response, and the defaulting of a key the service omitted. -/
theorem C4_witness :
    ((submitDescription initConvState "piso bonito" "sin datos").slots = initConvState.slots ∧
     (submitDescription initConvState "piso bonito" "sin datos").current_question_field =
       initConvState.current_question_field ∧
     (submitDescription initConvState "piso bonito" "sin datos").descripcion_original =
       "piso bonito" ∧
     awaitingDescription (submitDescription initConvState "piso bonito" "sin datos") = false) ∧
    (∃ v, (defaultAll [("precio", Value.int 950)]).lookup "mascotas" = some v) :=
  ⟨C4_amended.1 initConvState "piso bonito" "sin datos" (by decide) (by decide) rfl,
   C4_amended.2 "\x7b\"precio\": 950\x7d" (defaultAll [("precio", Value.int 950)]) "mascotas"
     rfl (by decide)⟩

/-! The ISO output shape: ten characters, digits around two dashes.
Every string parse_date_es returns has this shape, and every string of
this shape is returned verbatim by the ISO branch — the two halves of
the date part of idempotence. -/

def isoShapedB (s : String) : Bool :=
  match s.data with
  | [y1, y2, y3, y4, s1, m1, m2, s2, d1, d2] =>
    isDig y1 && isDig y2 && isDig y3 && isDig y4 && (s1 == '-') &&
    isDig m1 && isDig m2 && (s2 == '-') && isDig d1 && isDig d2
  | _ => false

theorem exactDigits_sound :
    ∀ (n : Nat) (l ds r : List Char), exactDigits n l = some (ds, r) →
      l = ds ++ r ∧ ds.length = n ∧ ∀ c ∈ ds, isDig c = true := by
  intro n
  induction n with
  | zero =>
    intro l ds r h
    rw [show exactDigits 0 l = some ([], l) from rfl] at h
    simp only [Option.some.injEq, Prod.mk.injEq] at h
    obtain ⟨h1, h2⟩ := h
    subst h1; subst h2
    exact ⟨rfl, rfl, by simp⟩
  | succ k ih =>
    intro l ds r h
    cases l with
    | nil => simp [exactDigits] at h
    | cons c rest =>
      simp only [exactDigits] at h
      by_cases hc : isDig c = true
      · rw [if_pos hc] at h
        cases h2 : exactDigits k rest with
        | none => rw [h2] at h; simp at h
        | some p =>
          obtain ⟨ds0, r0⟩ := p
          rw [h2] at h
          rw [Option.map_some'] at h
          simp only [Option.some.injEq, Prod.mk.injEq] at h
          obtain ⟨hds, hr⟩ := h
          obtain ⟨hl, hlen, hdig⟩ := ih rest ds0 r0 h2
          subst hds; subst hr; subst hl
          refine ⟨rfl, by simp [hlen], ?_⟩
          intro x hx
          rcases List.mem_cons.mp hx with rfl | hx2
          · exact hc
          · exact hdig x hx2
      · rw [if_neg hc] at h
        simp at h

theorem exactDigits_complete :
    ∀ (ds r : List Char), (∀ c ∈ ds, isDig c = true) →
      exactDigits ds.length (ds ++ r) = some (ds, r) := by
  intro ds
  induction ds with
  | nil => intro r _; rfl
  | cons c rest ih =>
    intro r h
    have hc : isDig c = true := h c (List.mem_cons_self c rest)
    show exactDigits (rest.length + 1) (c :: (rest ++ r)) = some (c :: rest, r)
    simp only [exactDigits, hc, if_true]
    rw [ih r (fun x hx => h x (List.mem_cons_of_mem c hx))]
    rfl

theorem padDigits_length {w n : Nat} (h : (toDecimalDigits n).length ≤ w) :
    (padDigits w n).length = w := by
  simp only [padDigits, List.length_append, List.length_replicate]
  omega

theorem mem_padDigits_isDig {w n : Nat} : ∀ c ∈ padDigits w n, isDig c = true := by
  intro c hc
  rcases List.mem_append.mp hc with hc2 | hc2
  · rw [List.eq_of_mem_replicate hc2]; rfl
  · exact mem_toDecimalDigits_isDig n c hc2

theorem length_four_elim {l : List Char} (h : l.length = 4) :
    ∃ a b c d, l = [a, b, c, d] := by
  rcases l with _ | ⟨a, _ | ⟨b, _ | ⟨c, _ | ⟨d, _ | ⟨e, t⟩⟩⟩⟩⟩ <;> simp at h
  exact ⟨a, b, c, d, rfl⟩

theorem length_two_elim {l : List Char} (h : l.length = 2) :
    ∃ a b, l = [a, b] := by
  rcases l with _ | ⟨a, _ | ⟨b, _ | ⟨c, t⟩⟩⟩ <;> simp at h
  exact ⟨a, b, rfl⟩

theorem formatDate_shape {y m d : Nat} (hy : y ≤ 9999) (hm : m ≤ 99) (hd : d ≤ 99) :
    isoShapedB (formatDate y m d) = true := by
  have hly : (padDigits 4 y).length = 4 :=
    padDigits_length (toDecimalDigits_length_le 4 y (by omega) (by norm_num; omega))
  have hlm : (padDigits 2 m).length = 2 :=
    padDigits_length (toDecimalDigits_length_le 2 m (by omega) (by norm_num; omega))
  have hld : (padDigits 2 d).length = 2 :=
    padDigits_length (toDecimalDigits_length_le 2 d (by omega) (by norm_num; omega))
  obtain ⟨a1, a2, a3, a4, hea⟩ := length_four_elim hly
  obtain ⟨b1, b2, hb⟩ := length_two_elim hlm
  obtain ⟨c1, c2, hc⟩ := length_two_elim hld
  have hda : ∀ c ∈ [a1, a2, a3, a4], isDig c = true := by
    rw [← hea]; exact mem_padDigits_isDig
  have hdb : ∀ c ∈ [b1, b2], isDig c = true := by
    rw [← hb]; exact mem_padDigits_isDig
  have hdc : ∀ c ∈ [c1, c2], isDig c = true := by
    rw [← hc]; exact mem_padDigits_isDig
  unfold formatDate isoShapedB
  rw [hea, hb, hc]
  simp only [List.cons_append, List.nil_append]
  simp [hda a1 (by simp), hda a2 (by simp), hda a3 (by simp), hda a4 (by simp),
    hdb b1 (by simp), hdb b2 (by simp), hdc c1 (by simp), hdc c2 (by simp)]

/-! Substring occurrences only use characters of the haystack. -/

theorem leadMatch_mem : ∀ (n h : List Char), leadMatch n h = true → ∀ c ∈ n, c ∈ h := by
  intro n
  induction n with
  | nil => intro h _ c hc; simp at hc
  | cons a as ih =>
    intro h hm c hc
    cases h with
    | nil => simp [leadMatch] at hm
    | cons b bs =>
      simp only [leadMatch, Bool.and_eq_true, beq_iff_eq] at hm
      obtain ⟨rfl, hm2⟩ := hm
      rcases List.mem_cons.mp hc with rfl | hc2
      · exact List.mem_cons_self _ _
      · exact List.mem_cons_of_mem _ (ih bs hm2 c hc2)

theorem hasSubList_mem : ∀ (h n : List Char), hasSubList n h = true → ∀ c ∈ n, c ∈ h := by
  intro h
  induction h with
  | nil =>
    intro n hm c hc
    simp only [hasSubList, List.isEmpty_iff] at hm
    subst hm
    simp at hc
  | cons b bs ih =>
    intro n hm c hc
    simp only [hasSubList, Bool.or_eq_true] at hm
    rcases hm with hm | hm
    · exact leadMatch_mem n (b :: bs) hm c hc
    · exact List.mem_cons_of_mem _ (ih n hm c hc)

theorem not_pyIn_of_missing_char (c0 : Char) {needle hay : String}
    (hc0 : c0 ∈ needle.data) (hall : ∀ c ∈ hay.data, isDig c = true ∨ c = '-')
    (h1 : isDig c0 = false) (h2 : c0 ≠ '-') : pyIn needle hay = false := by
  rw [← Bool.not_eq_true]
  intro hcon
  have := hasSubList_mem hay.data needle.data hcon c0 hc0
  rcases hall c0 this with hd | hd
  · rw [h1] at hd; exact Bool.false_ne_true hd
  · exact h2 hd

/-! Every ISO-shaped string is returned verbatim by parse_date_es. -/

theorem isoShapedB_elim {s : String} (h : isoShapedB s = true) :
    ∃ y1 y2 y3 y4 m1 m2 d1 d2,
      s.data = [y1, y2, y3, y4, '-', m1, m2, '-', d1, d2] ∧
      isDig y1 = true ∧ isDig y2 = true ∧ isDig y3 = true ∧ isDig y4 = true ∧
      isDig m1 = true ∧ isDig m2 = true ∧ isDig d1 = true ∧ isDig d2 = true := by
  obtain ⟨l⟩ := s
  rcases l with _ | ⟨y1, _ | ⟨y2, _ | ⟨y3, _ | ⟨y4, _ | ⟨s1, _ | ⟨m1, _ | ⟨m2, _ | ⟨s2, _ | ⟨d1, _ | ⟨d2, _ | ⟨x, t⟩⟩⟩⟩⟩⟩⟩⟩⟩⟩⟩
  · exact absurd h Bool.false_ne_true
  · exact absurd h Bool.false_ne_true
  · exact absurd h Bool.false_ne_true
  · exact absurd h Bool.false_ne_true
  · exact absurd h Bool.false_ne_true
  · exact absurd h Bool.false_ne_true
  · exact absurd h Bool.false_ne_true
  · exact absurd h Bool.false_ne_true
  · exact absurd h Bool.false_ne_true
  · exact absurd h Bool.false_ne_true
  · simp only [isoShapedB, Bool.and_eq_true, beq_iff_eq] at h
    obtain ⟨⟨⟨⟨⟨⟨⟨⟨⟨h1, h2⟩, h3⟩, h4⟩, h5⟩, h6⟩, h7⟩, h8⟩, h9⟩, h10⟩ := h
    subst h5; subst h8
    exact ⟨y1, y2, y3, y4, m1, m2, d1, d2, rfl, h1, h2, h3, h4, h6, h7, h9, h10⟩
  · exact absurd h Bool.false_ne_true

theorem map_id_of_all {f : Char → Char} :
    ∀ {l : List Char}, (∀ c ∈ l, f c = c) → l.map f = l := by
  intro l
  induction l with
  | nil => intro _; rfl
  | cons a t ih =>
    intro h
    rw [List.map_cons, h a (List.mem_cons_self a t), ih (fun c hc => h c (List.mem_cons_of_mem a hc))]

theorem matchIso_of_chars (y1 y2 y3 y4 m1 m2 d1 d2 : Char)
    (h1 : isDig y1 = true) (h2 : isDig y2 = true) (h3 : isDig y3 = true) (h4 : isDig y4 = true)
    (h5 : isDig m1 = true) (h6 : isDig m2 = true) (h7 : isDig d1 = true) (h8 : isDig d2 = true) :
    matchIso [y1, y2, y3, y4, '-', m1, m2, '-', d1, d2] =
      some (String.mk [y1, y2, y3, y4, '-', m1, m2, '-', d1, d2]) := by
  have hdw : List.dropWhile pyIsSpace [y1, y2, y3, y4, '-', m1, m2, '-', d1, d2] =
      [y1, y2, y3, y4, '-', m1, m2, '-', d1, d2] :=
    List.dropWhile_cons_of_neg (by rw [isDig_not_space h1]; exact Bool.false_ne_true)
  have e4 : exactDigits 4 [y1, y2, y3, y4, '-', m1, m2, '-', d1, d2] =
      some ([y1, y2, y3, y4], ['-', m1, m2, '-', d1, d2]) := by
    have := exactDigits_complete [y1, y2, y3, y4] ['-', m1, m2, '-', d1, d2]
      (by intro c hc; fin_cases hc <;> assumption)
    simpa using this
  have e2a : exactDigits 2 [m1, m2, '-', d1, d2] = some ([m1, m2], ['-', d1, d2]) := by
    have := exactDigits_complete [m1, m2] ['-', d1, d2]
      (by intro c hc; fin_cases hc <;> assumption)
    simpa using this
  have e2b : exactDigits 2 [d1, d2] = some ([d1, d2], []) := by
    have := exactDigits_complete [d1, d2] [] (by intro c hc; fin_cases hc <;> assumption)
    simpa using this
  unfold matchIso
  rw [hdw, e4]
  dsimp only
  rw [e2a]
  dsimp only
  rw [e2b]
  dsimp only
  simp

theorem iso_reparse (td : PyDate) (s : String) (h : isoShapedB s = true) :
    parse_date_es td s = some s := by
  obtain ⟨y1, y2, y3, y4, m1, m2, d1, d2, hdata, h1, h2, h3, h4, h5, h6, h7, h8⟩ :=
    isoShapedB_elim h
  have hall : ∀ c ∈ s.data, isDig c = true ∨ c = '-' := by
    rw [hdata]
    intro c hc
    fin_cases hc <;> simp [h1, h2, h3, h4, h5, h6, h7, h8]
  have hne : (s == "") = false := by
    rw [beq_eq_false_iff_ne]
    intro hcon
    subst hcon
    exact absurd hdata (by simp)
  have hstrip : pyStrip s = s := by
    show String.mk (pyStripList s.data) = s
    rw [pyStripList_eq_self]
    · intro a ha
      rw [hdata] at ha
      simp only [List.head?_cons, Option.some.injEq] at ha
      subst ha
      exact isDig_not_space h1
    · intro a ha
      rw [hdata] at ha
      simp only [List.getLast?] at ha
      have hda : d2 = a := by simpa [List.getLast] using ha
      rw [← hda]
      exact isDig_not_space h8
  have hlower : pyLower s = s := by
    show String.mk (s.data.map pyLowerChar) = s
    rw [map_id_of_all]
    intro c hc
    rcases hall c hc with hd | hd
    · exact isDig_lower hd
    · subst hd; rfl
  have hin1 : pyIn "inmediata" s = false :=
    not_pyIn_of_missing_char 'i' (by decide) hall (by decide) (by decide)
  have hin2 : pyIn "ya" s = false :=
    not_pyIn_of_missing_char 'y' (by decide) hall (by decide) (by decide)
  have hin3 : pyIn "hoy" s = false :=
    not_pyIn_of_missing_char 'h' (by decide) hall (by decide) (by decide)
  unfold parse_date_es
  rw [hne]
  simp only [Bool.false_eq_true, if_false]
  rw [hstrip, hlower, hin1, hin2, hin3]
  simp only [Bool.or_self, Bool.false_eq_true, if_false]
  rw [hdata, matchIso_of_chars y1 y2 y3 y4 m1 m2 d1 d2 h1 h2 h3 h4 h5 h6 h7 h8]
  rw [← hdata]

theorem matchIso_shape {l : List Char} {out : String} (h : matchIso l = some out) :
    isoShapedB out = true := by
  unfold matchIso at h
  cases e1 : exactDigits 4 (l.dropWhile pyIsSpace) with
  | none => rw [e1] at h; exact absurd h (by simp)
  | some p1 =>
    obtain ⟨g1, r1⟩ := p1
    rw [e1] at h
    dsimp only at h
    cases r1 with
    | nil => exact absurd h (by simp)
    | cons sep1 r2 =>
      dsimp only at h
      by_cases hs1 : (sep1 == '-') = true
      · rw [if_pos hs1] at h
        cases e2 : exactDigits 2 r2 with
        | none => rw [e2] at h; exact absurd h (by simp)
        | some p2 =>
          obtain ⟨g2, r3⟩ := p2
          rw [e2] at h
          dsimp only at h
          cases r3 with
          | nil => exact absurd h (by simp)
          | cons sep2 r4 =>
            dsimp only at h
            by_cases hs2 : (sep2 == '-') = true
            · rw [if_pos hs2] at h
              cases e3 : exactDigits 2 r4 with
              | none => rw [e3] at h; exact absurd h (by simp)
              | some p3 =>
                obtain ⟨g3, r5⟩ := p3
                rw [e3] at h
                dsimp only at h
                by_cases hemp : (r5.dropWhile pyIsSpace).isEmpty = true
                · rw [if_pos hemp] at h
                  have hout : String.mk (g1 ++ '-' :: (g2 ++ '-' :: g3)) = out :=
                    Option.some.inj h
                  obtain ⟨_, hlen1, hdig1⟩ := exactDigits_sound 4 _ _ _ e1
                  obtain ⟨_, hlen2, hdig2⟩ := exactDigits_sound 2 _ _ _ e2
                  obtain ⟨_, hlen3, hdig3⟩ := exactDigits_sound 2 _ _ _ e3
                  obtain ⟨a1, a2, a3, a4, hg1⟩ := length_four_elim hlen1
                  obtain ⟨b1, b2, hg2⟩ := length_two_elim hlen2
                  obtain ⟨c1, c2, hg3⟩ := length_two_elim hlen3
                  subst hg1; subst hg2; subst hg3
                  rw [← hout]
                  unfold isoShapedB
                  simp only [List.cons_append, List.nil_append]
                  simp [hdig1 a1 (by simp), hdig1 a2 (by simp), hdig1 a3 (by simp),
                    hdig1 a4 (by simp), hdig2 b1 (by simp), hdig2 b2 (by simp),
                    hdig3 c1 (by simp), hdig3 c2 (by simp)]
                · rw [if_neg hemp] at h
                  exact absurd h (by simp)
            · rw [if_neg hs2] at h
              exact absurd h (by simp)
      · rw [if_neg hs1] at h
        exact absurd h (by simp)

theorem daysInMonth_le31 (y m : Nat) : daysInMonth y m ≤ 31 := by
  unfold daysInMonth
  split
  · split <;> omega
  · split <;> omega

theorem parse_date_outputs_shaped (td : PyDate) (s d : String)
    (htd : validPyDate td = true) (h : parse_date_es td s = some d) :
    isoShapedB d = true := by
  have hbounds : td.year ≤ 9999 ∧ td.month ≤ 99 ∧ td.day ≤ 99 := by
    simp only [validPyDate, isValidDate, decide_eq_true_eq] at htd
    have := daysInMonth_le31 td.year td.month
    omega
  unfold parse_date_es at h
  by_cases h0 : (s == "") = true
  · rw [if_pos h0] at h; exact absurd h (by simp)
  rw [if_neg h0] at h
  by_cases hcue : (pyIn "inmediata" (pyLower (pyStrip s)) || pyIn "ya" (pyLower (pyStrip s)) ||
      pyIn "hoy" (pyLower (pyStrip s))) = true
  · rw [if_pos hcue] at h
    have hd : pyDateIso td = d := Option.some.inj h
    rw [← hd]
    exact formatDate_shape hbounds.1 hbounds.2.1 hbounds.2.2
  · rw [if_neg hcue] at h
    cases hiso : matchIso (pyLower (pyStrip s)).data with
    | some out =>
      rw [hiso] at h
      have hd : out = d := Option.some.inj h
      rw [← hd]
      exact matchIso_shape hiso
    | none =>
      rw [hiso] at h
      dsimp only at h
      cases hdmy : matchDMY (pyLower (pyStrip s)).data with
      | some tri =>
        obtain ⟨dd, mm, yyyy⟩ := tri
        rw [hdmy] at h
        dsimp only at h
        by_cases hval : isValidDate yyyy mm dd = true
        · rw [if_pos hval] at h
          have hd : formatDate yyyy mm dd = d := Option.some.inj h
          rw [← hd]
          simp only [isValidDate, decide_eq_true_eq] at hval
          have := daysInMonth_le31 yyyy mm
          exact formatDate_shape (by omega) (by omega) (by omega)
        · rw [if_neg hval] at h
          exact absurd h (by simp)
      | none =>
        rw [hdmy] at h
        dsimp only at h
        cases hverb : matchVerbose (pyLower (pyStrip s)).data with
        | some tri =>
          obtain ⟨dd, mes, yyyy⟩ := tri
          rw [hverb] at h
          dsimp only at h
          by_cases hmm : ((SPANISH_MONTHS.lookup (deaccent mes)).getD 0) ≠ 0
          · rw [if_pos hmm] at h
            by_cases hval : isValidDate yyyy ((SPANISH_MONTHS.lookup (deaccent mes)).getD 0) dd = true
            · rw [if_pos hval] at h
              have hd : formatDate yyyy ((SPANISH_MONTHS.lookup (deaccent mes)).getD 0) dd = d :=
                Option.some.inj h
              rw [← hd]
              simp only [isValidDate, decide_eq_true_eq] at hval
              have := daysInMonth_le31 yyyy ((SPANISH_MONTHS.lookup (deaccent mes)).getD 0)
              exact formatDate_shape (by omega) (by omega) (by omega)
            · rw [if_neg hval] at h
              exact absurd h (by simp)
          · rw [if_neg hmm] at h
            exact absurd h (by simp)
        | none =>
          rw [hverb] at h
          exact absurd h (by simp)

/-- C9, confirmed: re-normalizing an already-normalized value through
the same parser yields the same value — produced numbers re-parse from
their decimal string, produced booleans re-parse from their Python
string form, and produced dates (always zero-padded ISO strings)
re-parse to themselves. -/
theorem C9_idempotence :
    (∀ (s : String) (n : Nat), parse_number s = some n → parse_number (pyStrOfNat n) = some n) ∧
    (∀ (s : String) (b : Bool), parse_bool s = some b → parse_bool (pyStrBool b) = some b) ∧
    (∀ (td : PyDate) (s d : String), validPyDate td = true →
      parse_date_es td s = some d → parse_date_es td d = some d) := by
  refine ⟨?_, ?_, ?_⟩
  · intro s n _
    exact parse_number_pyStrOfNat n
  · intro s b _
    cases b
    · decide
    · decide
  · intro td s d htd h
    exact iso_reparse td d (parse_date_outputs_shaped td s d htd h)

/-- C9 witness: the three idempotence parts at concrete already-normalized
values. -/
theorem C9_witness :
    parse_number (pyStrOfNat 1200) = some 1200 ∧
    parse_bool (pyStrBool false) = some false ∧
    parse_date_es ⟨2025, 10, 12⟩ "2025-12-15" = some "2025-12-15" :=
  ⟨C9_idempotence.1 "1.200" 1200 (by decide),
   C9_idempotence.2.1 "no" false (by decide),
   C9_idempotence.2.2 ⟨2025, 10, 12⟩ "15/12/2025" "2025-12-15" (by decide) (by decide)⟩

/-- C5, corrected. The fixed ISO pattern is rebuilt from its digit
groups with no calendar validation, so the invalid date 2025-02-30 is
returned verbatim instead of absent. -/
theorem C5_counterexample :
    parse_date_es ⟨2025, 10, 12⟩ "2025-02-30" = some "2025-02-30" ∧
    parse_date_es ⟨2025, 10, 12⟩ "2025-02-30" ≠ Option.none := by
  refine ⟨rfl, by decide⟩

/-- C5 amended: on trimmed lower-cased input the date normalizer returns
ISO-shaped input verbatim without calendar validation; slash or dash
day/month/year and the verbose Spanish form (including the historical
setiembre) are calendar-validated, with invalid dates giving absent;
inputs containing a today-word resolve to the current date; other forms
give absent; and being a total function it never raises. -/
theorem C5_amended (td : PyDate) :
    parse_date_es td "2025-12-15" = some "2025-12-15" ∧
    parse_date_es td "2025-02-30" = some "2025-02-30" ∧
    parse_date_es td "15/12/2025" = some "2025-12-15" ∧
    parse_date_es td "15-12-2025" = some "2025-12-15" ∧
    parse_date_es td "30/02/2025" = Option.none ∧
    parse_date_es td "15 de diciembre de 2025" = some "2025-12-15" ∧
    parse_date_es td "1 de setiembre de 2025" = some "2025-09-01" ∧
    parse_date_es td "31 de abril de 2025" = Option.none ∧
    parse_date_es td "inmediata" = some (pyDateIso td) ∧
    parse_date_es td "hoy" = some (pyDateIso td) ∧
    parse_date_es td "cuando sea" = Option.none ∧
    (∀ s : String, isoShapedB s = true → parse_date_es td s = some s) := by
  refine ⟨rfl, rfl, rfl, rfl, rfl, rfl, rfl, rfl, rfl, rfl, rfl, ?_⟩
  intro s hs
  exact iso_reparse td s hs
